import Mathlib

/-!
Shallow embedding of the newsletter parsing core of `src/src/parser.rs`
(spazio_alfieri_bot). Timestamps are modelled as Europe/Rome local
civil date-times compared lexicographically; daylight-saving
transitions are not modelled (all dates the code constructs and
compares are unambiguous local times, for which lexicographic local
order agrees with instant order). The pest grammar files
(`resources/subject_line.pest`, `resources/date_entry.pest`) are not
part of the source tree given under `src/`, so tokenisation is
modelled from the spec where noted; everything else is translated
directly from `parser.rs`.
-/

/-- Europe/Rome local civil date-time (chrono `DateTime<Tz>` with `Tz = Europe::Rome`). -/
structure DateTime where
  year : Nat
  month : Nat
  day : Nat
  hour : Nat
  minute : Nat
  second : Nat
deriving DecidableEq, Repr

/-- Lexicographic order on civil date-times (chrono `<=` on `DateTime<Tz>`,
restricted to unambiguous local times of one timezone). -/
def DateTime.ble (a b : DateTime) : Bool :=
  decide (a.year < b.year ∨ (a.year = b.year ∧ (a.month < b.month ∨ (a.month = b.month ∧
    (a.day < b.day ∨ (a.day = b.day ∧ (a.hour < b.hour ∨ (a.hour = b.hour ∧
    (a.minute < b.minute ∨ (a.minute = b.minute ∧ a.second ≤ b.second))))))))))

/-- Strict order, `a < b` iff not `b <= a`. -/
def DateTime.blt (a b : DateTime) : Bool :=
  !(DateTime.ble b a)

def isLeapYear (y : Nat) : Bool :=
  (y % 4 == 0 && y % 100 != 0) || y % 400 == 0

def daysInMonth (y m : Nat) : Nat :=
  if m = 2 then (if isLeapYear y then 29 else 28)
  else if m = 4 ∨ m = 6 ∨ m = 9 ∨ m = 11 then 30
  else 31

/-- chrono `Tz::with_ymd_and_hms(..).single()`: `some` exactly on valid
calendar date-times. -/
def with_ymd_and_hms (y m d h mi s : Nat) : Option DateTime :=
  if 1 ≤ m ∧ m ≤ 12 ∧ 1 ≤ d ∧ d ≤ daysInMonth y m ∧ h < 24 ∧ mi < 60 ∧ s < 60 then
    some ⟨y, m, d, h, mi, s⟩
  else none

/-- chrono `Datelike::with_day`: replace the day-of-month, `none` if the
day is invalid for the current year and month. -/
def DateTime.with_day (dt : DateTime) (d : Nat) : Option DateTime :=
  if 1 ≤ d ∧ d ≤ daysInMonth dt.year dt.month then some { dt with day := d } else none

/-- chrono `Datelike::with_year`: replace the year, `none` if the stored
day is invalid in the new year (Feb 29 of a non-leap year). -/
def DateTime.with_year (dt : DateTime) (y : Nat) : Option DateTime :=
  if dt.day ≤ daysInMonth y dt.month then some { dt with year := y } else none

/-- chrono `DateTime::with_time` (total on the model: the times the code
builds are never in a daylight-saving gap). -/
def DateTime.with_time (dt : DateTime) (h mi s : Nat) : DateTime :=
  ⟨dt.year, dt.month, dt.day, h, mi, s⟩

/-- chrono `NaiveTime::from_hms_opt`. -/
def from_hms_opt (h mi s : Nat) : Option (Nat × Nat × Nat) :=
  if h < 24 ∧ mi < 60 ∧ s < 60 then some (h, mi, s) else none

/-- `month_name_to_number` of `parser.rs`. -/
def month_name_to_number (name : String) : Except String Nat :=
  match name with
  | "gennaio" => .ok 1
  | "febbraio" => .ok 2
  | "marzo" => .ok 3
  | "aprile" => .ok 4
  | "maggio" => .ok 5
  | "giugno" => .ok 6
  | "luglio" => .ok 7
  | "agosto" => .ok 8
  | "settembre" => .ok 9
  | "ottobre" => .ok 10
  | "novembre" => .ok 11
  | "dicembre" => .ok 12
  | _ => .error "Encountered invalid month"

/-- Modelled from the spec: the subject-line pest grammar
(`resources/subject_line.pest`, not under `src/`) tokenises the subject
into `day_number` and `month` tokens, ignoring all other text; a token
stream is the input of the embedded `parse_subject_line_dates`. -/
inductive SubjToken where
  | day_number (n : Nat)
  | month (name : String)
  | other (s : String)
deriving DecidableEq, Repr

/-- The token loop of `parse_subject_line_dates` (parser.rs lines 62-81):
collect day numbers and month numbers, with the guard
`months.is_empty() && day_numbers.is_empty() || day_numbers.len() > 2`
rejecting a month token; other rules are skipped. -/
def collectSubjectTokens : List SubjToken → List Nat → List Nat →
    Except String (List Nat × List Nat)
  | [], days, months => .ok (days, months)
  | .day_number n :: rest, days, months =>
      collectSubjectTokens rest (days ++ [n]) months
  | .month name :: rest, days, months =>
      match month_name_to_number name with
      | .error e => .error e
      | .ok m =>
          if (months.isEmpty && days.isEmpty) || days.length > 2 then
            .error "Unexpected month input with invalid day numbers"
          else
            collectSubjectTokens rest days (months ++ [m])
  | .other _ :: rest, days, months => collectSubjectTokens rest days months

/-- parser.rs lines 83-94: require exactly two day numbers, duplicate a
single month, and pair days with months positionally (`zip`). -/
def collectAndPair (tokens : List SubjToken) : Except String (List (Nat × Nat)) :=
  match collectSubjectTokens tokens [] [] with
  | .error e => .error e
  | .ok (days, months) =>
      if days.length = 2 then
        let months2 := if months.length = 1 then months ++ months else months
        .ok (days.zip months2)
      else .error "Expected two day numbers"

/-- parser.rs lines 94-106: build a Europe/Rome midnight timestamp in the
current year for each (day, month) pair; an invalid calendar date fails. -/
def mkBoundaryDates (year : Nat) : List (Nat × Nat) → Except String (List DateTime)
  | [] => .ok []
  | (day, month) :: rest =>
      match with_ymd_and_hms year month day 0 0 0 with
      | some d =>
          match mkBoundaryDates year rest with
          | .ok ds => .ok (d :: ds)
          | .error e => .error e
      | none => .error "Unable to get valid date"

/-- parser.rs lines 108-114: year-crossover re-anchoring of the second
date to `year + 1` when it is earlier than the first (the `unwrap` on
`with_year` is modelled as an error), then forcing the second date's
time of day to 23:59:59. Indexing `dates[1]` with fewer than two dates
(no month token at all) is a Rust panic, modelled as an error. -/
def finishBoundaryDates (year : Nat) : List DateTime → Except String (List DateTime)
  | [d0, d1] =>
      match (if DateTime.blt d1 d0 then
               match d1.with_year (year + 1) with
               | some d => Except.ok d
               | none => Except.error "panic: with_year returned None"
             else Except.ok d1 : Except String DateTime) with
      | .ok second => .ok [d0, second.with_time 23 59 59]
      | .error e => .error e
  | _ => .error "panic: boundary dates index out of bounds"

/-- `parse_subject_line_dates` of parser.rs (lines 54-115), over subject
tokens and an injected current year (`Utc::now().year()`). -/
def parse_subject_line_dates (year : Nat) (tokens : List SubjToken) :
    Except String (List DateTime) :=
  match collectAndPair tokens with
  | .error e => .error e
  | .ok pairs =>
      match mkBoundaryDates year pairs with
      | .error e => .error e
      | .ok dates => finishBoundaryDates year dates

/-- `DateEntry` of parser.rs. -/
structure DateEntry where
  date : DateTime
  additional_details : Option String
deriving DecidableEq, Repr

/-- `ProgrammingEntry` of parser.rs. -/
structure ProgrammingEntry where
  title : String
  date_entries : List DateEntry
deriving DecidableEq, Repr

/-- `NewsletterEntry` of parser.rs. -/
structure NewsletterEntry where
  programming_entries : List ProgrammingEntry
  newsletter_link : String
deriving DecidableEq, Repr

/-- Modelled from the spec: one inner pair of a `date_entry` production of
the date-entry pest grammar (`resources/date_entry.pest`, not under
`src/`): `date_entry := day_number month? time+ additional_details?`,
`time := hours ':' minutes`. A `time` pair is carried with its hour and
minute values (both components are mandatory in the grammar, so the
`parse_time` failure branches of parser.rs are unreachable). -/
inductive EntryPairRule where
  | day_number (n : Nat)
  | month (name : String)
  | time (hours minutes : Nat)
  | additional_details (s : String)
deriving DecidableEq, Repr

/-- A pest `Pair` for the `date_entry` rule: its matched source text
(`as_str`) and its inner pairs. -/
structure DateEntryPair where
  src : String
  inner : List EntryPairRule
deriving DecidableEq, Repr

/-- `ParsedDateEntries` of parser.rs. -/
inductive ParsedDateEntries where
  | Parsed (entries : List DateEntry)
  | Uncertain (pair : DateEntryPair)
deriving DecidableEq, Repr

/-- Accumulator of the inner-pair loop of `parse_date_entry`
(parser.rs lines 235-263). -/
structure EntryFields where
  day_number : Option Nat
  month : Option Nat
  times : List (Nat × Nat)
  additional_details : Option String
deriving DecidableEq, Repr

/-- The inner-pair loop of `parse_date_entry` (parser.rs lines 240-263):
later occurrences of a rule overwrite earlier ones, times accumulate in
order, and an invalid month name fails. -/
def collectEntryFields : List EntryPairRule → EntryFields → Except String EntryFields
  | [], f => .ok f
  | .day_number n :: rest, f =>
      collectEntryFields rest { f with day_number := some n }
  | .month name :: rest, f =>
      match month_name_to_number name with
      | .ok m => collectEntryFields rest { f with month := some m }
      | .error e => .error e
  | .time h mi :: rest, f =>
      collectEntryFields rest { f with times := f.times ++ [(h, mi)] }
  | .additional_details s :: rest, f =>
      collectEntryFields rest { f with additional_details := some s }

/-- parser.rs line 270-273: `lower_bound.with_day(day)` filtered by
`d >= lower_bound`. -/
def firstCandidate (lower_bound : DateTime) (day : Nat) : Option DateTime :=
  match lower_bound.with_day day with
  | some d => if DateTime.ble lower_bound d then some d else none
  | none => none

/-- parser.rs line 271-274: fall back to `upper_bound.with_day(day)` when
the first candidate was rejected. -/
def candidateBeforeUpperCheck (lower_bound upper_bound : DateTime) (day : Nat) :
    Option DateTime :=
  match firstCandidate lower_bound day with
  | some d => some d
  | none => upper_bound.with_day day

/-- parser.rs line 275: the chosen candidate is filtered by
`d <= upper_bound`. The second candidate is never compared against the
lower bound. -/
def chooseCandidate (lower_bound upper_bound : DateTime) (day : Nat) : Option DateTime :=
  match candidateBeforeUpperCheck lower_bound upper_bound day with
  | some d => if DateTime.ble d upper_bound then some d else none
  | none => none

/-- parser.rs lines 270-289: resolve one (day, time) combination against
the boundary pair; the `with_context` error of the source is modelled by
a fixed message. -/
def resolveTime (lower_bound upper_bound : DateTime) (day hours minutes : Nat) :
    Except String DateTime :=
  match chooseCandidate lower_bound upper_bound day with
  | some d =>
      match from_hms_opt hours minutes 0 with
      | some t => .ok (d.with_time t.1 t.2.1 t.2.2)
      | none => .error "Unable to get valid date with day from bounds"
  | none => .error "Unable to get valid date with day from bounds"

/-- `parse_date_entry` of parser.rs (lines 230-319). Note three facts of
the source faithfully kept by the model: the parsed `month` field is
never consulted when building dates (the final match binds it with `_`);
per-time resolution failures are discarded by
`.filter_map(Result::ok)`, silently dropping those times; and the
`Uncertain` variant is never produced. -/
def parse_date_entry (pair : DateEntryPair) (lower_bound upper_bound : DateTime) :
    Except String ParsedDateEntries :=
  match collectEntryFields pair.inner ⟨none, none, [], none⟩ with
  | .error e => .error e
  | .ok f =>
      match f.day_number with
      | some day =>
          if f.times.isEmpty then .error "Missing required data"
          else
            let results := f.times.map
              (fun hm => resolveTime lower_bound upper_bound day hm.1 hm.2)
            let kept := results.filterMap
              (fun r => match r with | .ok d => some d | .error _ => none)
            .ok (.Parsed (kept.map (fun date => ⟨date, f.additional_details⟩)))
      | none => .error "Missing required data"

/-- A node of the parsed HTML document (scraper/ego-tree `Node`,
restricted to the element and text kinds the walker consumes). -/
inductive DomNode where
  | element (tag : String) (attrs : List (String × String)) (children : List DomNode)
  | text (s : String)
deriving Repr

mutual
/-- Pre-order traversal of a node and its descendants (ego-tree
`descendants()`, which yields the node itself first). -/
def preorder : DomNode → List DomNode
  | .element t a cs => .element t a cs :: preorderList cs
  | .text s => [.text s]
/-- Pre-order traversal of a forest of nodes. -/
def preorderList : List DomNode → List DomNode
  | [] => []
  | c :: cs => preorder c ++ preorderList cs
end

/-- Descendant text nodes in document order (scraper `ElementRef::text`). -/
def textFragments (n : DomNode) : List String :=
  (preorder n).filterMap (fun x => match x with | .text s => some s | _ => none)

/-- `title_node.text().next()` of parser.rs lines 139-142: the first
descendant text fragment, if any. -/
def firstText (n : DomNode) : Option String :=
  (textFragments n).head?

/-- parser.rs lines 152-159: flatten a schedule box into one text blob:
text nodes verbatim, `br` elements as a newline, everything else
skipped; fragments joined with a single space (`itertools::join`). -/
def flattenScheduleText (n : DomNode) : String :=
  String.intercalate " " ((preorder n).filterMap (fun x =>
    match x with
    | .text s => some s
    | .element tag _ _ => if tag == "br" then some "\n" else none))

/-- An element matched by a selector, together with its chain of ancestor
elements from the document root down to its parent. -/
structure SelectedNode where
  node : DomNode
  ancestors : List DomNode
deriving Repr

/-- Child-combinator selector (`a > b > ... > z`): the pattern must be a
contiguous suffix of the root-to-self tag chain. -/
def matchesChildChain (pat : List String) (ancTags : List String) (tag : String) : Bool :=
  pat.isSuffixOf (ancTags ++ [tag])

/-- Order-preserving (not necessarily contiguous) containment of one tag
list in another, for descendant combinators. -/
def isSubseq : List String → List String → Bool
  | [], _ => true
  | _ :: _, [] => false
  | a :: as, b :: bs => if a == b then isSubseq as bs else isSubseq (a :: as) bs

/-- Descendant-combinator selector (`a b ... z`): the element's tag is the
last pattern component and the rest embeds in order into the strict
ancestor tag chain. -/
def matchesDescChain (pat : List String) (ancTags : List String) (tag : String) : Bool :=
  match pat.getLast? with
  | some lastTag => lastTag == tag && isSubseq pat.dropLast ancTags
  | none => false

mutual
/-- Document-order selection (scraper `Html::select`): walk the tree,
testing each element against the matcher with its ancestor tag chain;
a matching element is emitted before its descendants. -/
def selectNodes (matcher : List String → String → Bool) (anc : List DomNode)
    (ancTags : List String) : DomNode → List SelectedNode
  | .element t a cs =>
      (if matcher ancTags t then [⟨.element t a cs, anc⟩] else []) ++
        selectNodesList matcher (anc ++ [.element t a cs]) (ancTags ++ [t]) cs
  | .text _ => []
/-- Document-order selection over a forest of sibling nodes. -/
def selectNodesList (matcher : List String → String → Bool) (anc : List DomNode)
    (ancTags : List String) : List DomNode → List SelectedNode
  | [] => []
  | c :: cs => selectNodes matcher anc ancTags c ++ selectNodesList matcher anc ancTags cs
end

/-- The fixed newsletter-link selector of parser.rs line 122
(`table > tbody > tr > td > table > tbody > tr > td > p > a`). -/
def linkSelectorPath : List String :=
  ["table", "tbody", "tr", "td", "table", "tbody", "tr", "td", "p", "a"]

/-- The fixed title selector of parser.rs line 130 (descendant
combinators ending in `h1`). -/
def titleSelectorPath : List String :=
  ["div", "div", "div", "table", "tbody", "tr", "td", "table", "tbody", "tr", "td",
   "table", "tbody", "tr", "td", "table", "tbody", "tr", "td", "table", "tbody",
   "tr", "td", "h1"]

/-- All elements matching the newsletter-link selector, in document order. -/
def linkMatches (dom : DomNode) : List SelectedNode :=
  selectNodes (fun ancTags t => matchesChildChain linkSelectorPath ancTags t) [] [] dom

/-- All elements matching the title selector, in document order. -/
def titleMatches (dom : DomNode) : List SelectedNode :=
  selectNodes (fun ancTags t => matchesDescChain titleSelectorPath ancTags t) [] [] dom

/-- Attribute lookup on an element (scraper `ElementRef::attr`). -/
def getAttr (n : DomNode) (key : String) : Option String :=
  match n with
  | .element _ attrs _ => (attrs.find? (fun p => p.1 == key)).map (fun p => p.2)
  | .text _ => none

/-- parser.rs lines 143-150: walk three `parent_element()` steps up from
the title heading and require that element to be a `tbody` (in the model
every ancestor of a node is an element, as text nodes have no children). -/
def parentElement3 (sel : SelectedNode) : Option DomNode :=
  match sel.ancestors.reverse with
  | _ :: _ :: p3 :: _ =>
      match p3 with
      | .element t a cs => if t == "tbody" then some (.element t a cs) else none
      | .text _ => none
  | _ => none

/-- Digit character test over code points. -/
def isDigitChar (c : Char) : Bool :=
  48 ≤ c.toNat && c.toNat ≤ 57

/-- Whitespace character test. -/
def isSpaceChar (c : Char) : Bool :=
  c == ' ' || c == '\n' || c == '\t' || c == '\r'

/-- Split a character list at separators chosen by a predicate, keeping
(possibly empty) segments between separators. -/
def splitOnPred (p : Char → Bool) : List Char → List Char → List (List Char)
  | [], acc => [acc.reverse]
  | c :: rest, acc =>
      if p c then acc.reverse :: splitOnPred p rest []
      else splitOnPred p rest (c :: acc)

/-- Modelled from the spec: decimal value of a digit word. -/
def decodeDigits (w : String) : Nat :=
  w.toList.foldl (fun acc c => acc * 10 + (c.toNat - 48)) 0

/-- Modelled from the spec: `day_number` is one or two digits. -/
def parseDayWord (w : String) : Option Nat :=
  if 1 ≤ w.toList.length && w.toList.length ≤ 2 && w.toList.all isDigitChar then
    some (decodeDigits w)
  else none

/-- Modelled from the spec: a `month` token is one of the twelve Italian
month names. -/
def parseMonthWord (w : String) : Option Nat :=
  match month_name_to_number w with
  | .ok m => some m
  | .error _ => none

/-- Modelled from the spec: `time := hours ':' minutes` with one-or-two
digit hours and two-digit minutes. -/
def parseTimeWord (w : String) : Option (Nat × Nat) :=
  match splitOnPred (fun c => c == ':') w.toList [] with
  | [h, m] =>
      if (1 ≤ h.length && h.length ≤ 2 && h.all isDigitChar) &&
         (m.length == 2 && m.all isDigitChar) then
        some (decodeDigits (String.mk h), decodeDigits (String.mk m))
      else none
  | _ => none

/-- Modelled from the spec: split a schedule-box text blob into
whitespace-separated words before token recognition. -/
def splitWords (s : String) : List String :=
  ((splitOnPred isSpaceChar s.toList []).map (fun cs => String.mk cs)).filter
    (fun w => w ≠ "")

/-- Modelled from the spec: lookahead deciding whether a `date_entry`
production starts here: a day number followed (after an optional month
name) by at least one time token. -/
def startsDateEntry (ws : List String) : Bool :=
  match ws with
  | w :: rest =>
      (parseDayWord w).isSome &&
        (match rest with
         | w2 :: rest2 =>
             (parseTimeWord w2).isSome ||
               ((parseMonthWord w2).isSome &&
                 (match rest2 with
                  | w3 :: _ => (parseTimeWord w3).isSome
                  | [] => false))
         | [] => false)
  | [] => false

/-- Modelled from the spec: consume the maximal run of `time` tokens. -/
def scanTimeRun : List String → List (Nat × Nat) × List String
  | [] => ([], [])
  | w :: rest =>
      match parseTimeWord w with
      | some hm =>
          let tr := scanTimeRun rest
          (hm :: tr.1, tr.2)
      | none => ([], w :: rest)

/-- Modelled from the spec: `additional_details` captures trailing free
text up to the next `date_entry` or the end of the block. -/
def scanDetails : List String → List String × List String
  | [] => ([], [])
  | w :: rest =>
      if startsDateEntry (w :: rest) then ([], w :: rest)
      else
        let dr := scanDetails rest
        (w :: dr.1, dr.2)

/-- Modelled from the spec: scan the word stream for `date_entry`
productions (`text := (date_entry | other)*`), skipping non-matching
words; fuelled to make the recursion structural. -/
def scanEntriesFuel : Nat → List String → List DateEntryPair
  | 0, _ => []
  | _, [] => []
  | fuel + 1, w :: rest =>
      if startsDateEntry (w :: rest) then
        match parseDayWord w with
        | some day =>
            let ms : List EntryPairRule × List String :=
              match rest with
              | w2 :: rest2 =>
                  match parseMonthWord w2 with
                  | some _ => ([.month w2], rest2)
                  | none => ([], rest)
              | [] => ([], [])
            let tr := scanTimeRun ms.2
            let dr := scanDetails tr.2
            let detailsTok : List EntryPairRule :=
              match dr.1 with
              | [] => []
              | l => [.additional_details (String.intercalate " " l)]
            ⟨w, [EntryPairRule.day_number day] ++ ms.1 ++
                  (tr.1.map (fun hm => EntryPairRule.time hm.1 hm.2)) ++ detailsTok⟩
              :: scanEntriesFuel fuel dr.2
        | none => scanEntriesFuel fuel rest
      else scanEntriesFuel fuel rest

/-- Modelled from the spec: `DateEntryParser::parse(Rule::text, ..)` —
tokenise a schedule-box blob into `date_entry` pairs. The grammar skips
arbitrary non-matching spans, so tokenisation itself never fails; the
`Except` shape mirrors the fallible call site in parser.rs line 162. -/
def dateEntryGrammarParse (text : String) : Except String (List DateEntryPair) :=
  .ok (scanEntriesFuel (splitWords text).length (splitWords text))

/-- The first loop of `parse_html` over parsed pairs (parser.rs lines
165-180): resolved entries extend the output in order; `Uncertain`
pairs are queued for a second pass. Every pair produced by the grammar
is a `date_entry`, so the `Unexpected top-level rule` branch of the
source is unreachable in the model. -/
def firstPass (lower_bound upper_bound : DateTime) :
    List DateEntryPair → Except String (List DateEntry × List DateEntryPair)
  | [] => .ok ([], [])
  | p :: ps =>
      match parse_date_entry p lower_bound upper_bound with
      | .error e => .error e
      | .ok r =>
          match firstPass lower_bound upper_bound ps with
          | .error e => .error e
          | .ok (des, rps) =>
              match r with
              | .Parsed parsed => .ok (parsed ++ des, rps)
              | .Uncertain q => .ok (des, q :: rps)

/-- The second loop of `parse_html` over deferred pairs (parser.rs lines
182-198): a pair still `Uncertain` fails the parse, naming the
offending source text. -/
def secondPass (lower_bound upper_bound : DateTime) :
    List DateEntryPair → Except String (List DateEntry)
  | [] => .ok []
  | p :: ps =>
      match parse_date_entry p lower_bound upper_bound with
      | .error e => .error e
      | .ok (.Parsed parsed) =>
          match secondPass lower_bound upper_bound ps with
          | .error e => .error e
          | .ok rest => .ok (parsed ++ rest)
      | .ok (.Uncertain q) => .error ("Unable to parse month from input: " ++ q.src)

/-- The per-title body of the `parse_html` loop (parser.rs lines
138-203): extract the first text fragment as the title, locate the
`tbody` schedule box three parent elements up, flatten it to text, run
the date-entry grammar and both resolution passes. -/
def processBlock (lower_bound upper_bound : DateTime) (sel : SelectedNode) :
    Except String ProgrammingEntry :=
  match firstText sel.node with
  | none => .error "Could not find text in selected element"
  | some title =>
      match parentElement3 sel with
      | none => .error "Invalid element: could not find grandparent tbody box"
      | some enclosing_box =>
          match dateEntryGrammarParse (flattenScheduleText enclosing_box) with
          | .error e => .error e
          | .ok parsed_pairs =>
              match firstPass lower_bound upper_bound parsed_pairs with
              | .error e => .error e
              | .ok (des1, reparse) =>
                  match secondPass lower_bound upper_bound reparse with
                  | .error e => .error e
                  | .ok des2 => .ok ⟨title, des1 ++ des2⟩

/-- The title loop of `parse_html` (parser.rs lines 138-204): process the
matched title headings in document order, failing on the first failing
block. -/
def processBlocks (lower_bound upper_bound : DateTime) :
    List SelectedNode → Except String (List ProgrammingEntry)
  | [] => .ok []
  | b :: bs =>
      match processBlock lower_bound upper_bound b with
      | .error e => .error e
      | .ok entry =>
          match processBlocks lower_bound upper_bound bs with
          | .error e => .error e
          | .ok rest => .ok (entry :: rest)

/-- `parse_html` of parser.rs (lines 117-210): destructure the boundary
pair, locate the newsletter link (first selector match, requiring an
`href` attribute), then process every title block. -/
def parse_html (dom : DomNode) (date_boundaries : List DateTime) :
    Except String NewsletterEntry :=
  match date_boundaries with
  | [lower_bound, upper_bound] =>
      match (linkMatches dom).head? with
      | none => .error "Could not find newsletter link!"
      | some linkNode =>
          match getAttr linkNode.node "href" with
          | none => .error "Newsletter link does not have href attribute!"
          | some newsletter_link =>
              match processBlocks lower_bound upper_bound (titleMatches dom) with
              | .error e => .error e
              | .ok entries => .ok ⟨entries, newsletter_link⟩
  | _ => .error "Invalid date boundaries"

/-- `parse_email_body` of parser.rs (lines 49-52). Modelled from the
spec at the boundary: the subject line arrives as its grammar token
stream and the body as its parsed DOM, since subject tokenisation
(`subject_line.pest`) and `Html::parse_document` (html5ever) are not
part of the source under `src/`; the injected `year` stands for
`Utc::now().year()`. -/
def parse_email_body (year : Nat) (subject : List SubjToken) (body : DomNode) :
    Except String NewsletterEntry :=
  match parse_subject_line_dates year subject with
  | .ok date_boundaries => parse_html body date_boundaries
  | .error e => .error ("Unable to parse subject line: " ++ e)

/-- Nest a chain of single-child elements around an innermost node, for
building test documents. -/
def nest : List String → DomNode → DomNode
  | [], n => n
  | t :: ts, n => .element t [] [nest ts n]

/-- A document fragment matching the newsletter-link selector. -/
def linkChainA : DomNode :=
  nest ["table", "tbody", "tr", "td", "table", "tbody", "tr", "td", "p"]
    (.element "a" [("href", "https://example.org/nl")] [])

/-- A schedule box whose heading is `FILM TITLE` and whose blob contains
the date entry `26 settembre 17:00`. -/
def scheduleBoxA : DomNode :=
  .element "tbody" [] [.element "tr" [] [.element "td" [] [
    .element "h1" [] [.text "FILM TITLE"], .text "26 settembre 17:00"]]]

/-- The ancestor tags placed above a schedule box so that its `h1`
matches the title selector with the box as third parent element. -/
def titleChainTags : List String :=
  ["div", "div", "div", "table", "tbody", "tr", "td", "table", "tbody", "tr", "td",
   "table", "tbody", "tr", "td", "table", "tbody", "tr", "td", "table"]

/-- Fixture document A: a link chain plus one title block. -/
def domA : DomNode :=
  .element "html" [] [linkChainA, nest titleChainTags scheduleBoxA]

/-- Fixture subject A: `programmazione 25 settembre > 2 ottobre`. -/
def subjToksA : List SubjToken :=
  [.other "programmazione", .day_number 25, .month "settembre", .other ">",
   .day_number 2, .month "ottobre"]

/-- Fixture subject D: `25 settembre 30` — a single-month boundary pair
spanning September 25 to September 30. -/
def subjToksD : List SubjToken :=
  [.day_number 25, .month "settembre", .day_number 30]

/-- A schedule box whose blob contains the day-only entry `10 17:00`,
whose day predates the single-month boundary. -/
def scheduleBoxD : DomNode :=
  .element "tbody" [] [.element "tr" [] [.element "td" [] [
    .element "h1" [] [.text "FILM"], .text "10 17:00"]]]

/-- Fixture document D. -/
def domD : DomNode :=
  .element "html" [] [linkChainA, nest titleChainTags scheduleBoxD]

/-- A schedule box whose heading has no text node at all. -/
def scheduleBoxC : DomNode :=
  .element "tbody" [] [.element "tr" [] [.element "td" [] [
    .element "h1" [] []]]]

/-- Fixture document C: structurally valid, but the title heading is
empty. -/
def domC : DomNode :=
  .element "html" [] [linkChainA, nest titleChainTags scheduleBoxC]

/-- Fixture subject B: `27 dicembre > 3 gennaio`, a year crossover. -/
def subjToksB : List SubjToken :=
  [.day_number 27, .month "dicembre", .other ">", .day_number 3, .month "gennaio"]

/-- A placeholder selected node used as the default of `List.getD`. -/
def defaultSelected : SelectedNode :=
  ⟨.text "", []⟩

/-- Number of `day_number` tokens in a subject-line token stream. -/
def countDayTokens (toks : List SubjToken) : Nat :=
  (toks.filter (fun t => match t with | .day_number _ => true | _ => false)).length

/-- Number of `month` tokens in a subject-line token stream. -/
def countMonthTokens (toks : List SubjToken) : Nat :=
  (toks.filter (fun t => match t with | .month _ => true | _ => false)).length

/-- A date-time built by `with_ymd_and_hms` carries exactly the given
fields. -/
theorem with_ymd_eq (y m d h mi s : Nat) (dt : DateTime)
    (hw : with_ymd_and_hms y m d h mi s = some dt) :
    dt = ⟨y, m, d, h, mi, s⟩ := by
  unfold with_ymd_and_hms at hw
  split at hw
  · exact (Option.some.inj hw).symm
  · simp at hw

/-- `with_year` only changes the year field. -/
theorem with_year_eq (dt : DateTime) (y : Nat) (d2 : DateTime)
    (hw : dt.with_year y = some d2) : d2 = { dt with year := y } := by
  unfold DateTime.with_year at hw
  split at hw
  · exact (Option.some.inj hw).symm
  · simp at hw

/-- `with_day` only changes the day field. -/
theorem with_day_eq (dt : DateTime) (d : Nat) (d2 : DateTime)
    (hw : dt.with_day d = some d2) : d2 = { dt with day := d } := by
  unfold DateTime.with_day at hw
  split at hw
  · exact (Option.some.inj hw).symm
  · simp at hw

/-- Strictly larger year implies `ble`. -/
theorem year_lt_ble (a b : DateTime) (h : a.year < b.year) :
    DateTime.ble a b = true := by
  simp only [DateTime.ble, decide_eq_true_eq]
  omega

/-- Pushing the time of day of the upper side of a `ble` pair to
23:59:59 preserves the order when the lower side is a midnight. -/
theorem midnight_ble_with_time (a b : DateTime)
    (hle : DateTime.ble a b = true)
    (h0 : a.hour = 0) (h1 : a.minute = 0) (h2 : a.second = 0) :
    DateTime.ble a (b.with_time 23 59 59) = true := by
  simp only [DateTime.ble, DateTime.with_time, decide_eq_true_eq] at hle ⊢
  omega

/-- Replacing the time of day of the lower side of a `ble` pair by a
valid in-day time preserves the order when the upper side ends a day at
23:59:59. -/
theorem ble_with_time_upper (c hi : DateTime) (h mi : Nat)
    (hle : DateTime.ble c hi = true) (hh : h < 24) (hm : mi < 60)
    (h23 : hi.hour = 23) (h59 : hi.minute = 59) (h59s : hi.second = 59) :
    DateTime.ble (c.with_time h mi 0) hi = true := by
  simp only [DateTime.ble, DateTime.with_time, decide_eq_true_eq] at hle ⊢
  omega

/-- Every date produced by `mkBoundaryDates` is a midnight of the given
year. -/
theorem mkBoundaryDates_fields (year : Nat) (ps : List (Nat × Nat)) (ds : List DateTime)
    (h : mkBoundaryDates year ps = .ok ds) :
    ∀ d ∈ ds, d.year = year ∧ d.hour = 0 ∧ d.minute = 0 ∧ d.second = 0 := by
  induction ps generalizing ds with
  | nil =>
      unfold mkBoundaryDates at h
      injection h with h1
      subst h1
      intro d hd
      simp at hd
  | cons p rest ih =>
      obtain ⟨day, mon⟩ := p
      unfold mkBoundaryDates at h
      cases hw : with_ymd_and_hms year mon day 0 0 0 with
      | none =>
          simp only [hw] at h
          exact absurd h (by simp)
      | some d0 =>
          simp only [hw] at h
          cases hrest : mkBoundaryDates year rest with
          | error e =>
              simp only [hrest] at h
              exact absurd h (by simp)
          | ok ds2 =>
              simp only [hrest] at h
              injection h with h1
              subst h1
              intro d hd
              rcases List.mem_cons.mp hd with rfl | hmem
              · rw [with_ymd_eq year mon day 0 0 0 d hw]
                exact ⟨rfl, rfl, rfl, rfl⟩
              · exact ih ds2 hrest d hmem

/-- Shape of any successful subject-line resolution: two dates, lower a
midnight, upper a 23:59:59, in order. -/
theorem parse_subject_ok_shape (year : Nat) (toks : List SubjToken) (ds : List DateTime)
    (hp : parse_subject_line_dates year toks = .ok ds) :
    ∃ lo hi, ds = [lo, hi] ∧ DateTime.ble lo hi = true ∧
      lo.hour = 0 ∧ lo.minute = 0 ∧ lo.second = 0 ∧
      hi.hour = 23 ∧ hi.minute = 59 ∧ hi.second = 59 := by
  unfold parse_subject_line_dates at hp
  cases hcp : collectAndPair toks with
  | error e =>
      simp only [hcp] at hp
      exact absurd hp (by simp)
  | ok pairs =>
      simp only [hcp] at hp
      cases hmk : mkBoundaryDates year pairs with
      | error e =>
          simp only [hmk] at hp
          exact absurd hp (by simp)
      | ok dates =>
          simp only [hmk] at hp
          have hfields := mkBoundaryDates_fields year pairs dates hmk
          unfold finishBoundaryDates at hp
          rcases dates with _ | ⟨d0, _ | ⟨d1, _ | ⟨d2, rest⟩⟩⟩
          · exact absurd hp (by simp)
          · exact absurd hp (by simp)
          · have hf0 := hfields d0 (by simp)
            have hf1 := hfields d1 (by simp)
            cases hb : DateTime.blt d1 d0 with
            | false =>
                simp only [hb] at hp
                simp only [Bool.false_eq_true, if_false] at hp
                injection hp with h1
                subst h1
                refine ⟨d0, d1.with_time 23 59 59, rfl, ?_, hf0.2.1, hf0.2.2.1, hf0.2.2.2, rfl, rfl, rfl⟩
                have hble : DateTime.ble d0 d1 = true := by
                  have := hb
                  unfold DateTime.blt at this
                  simpa using this
                exact midnight_ble_with_time d0 d1 hble hf0.2.1 hf0.2.2.1 hf0.2.2.2
            | true =>
                simp only [hb, if_true] at hp
                cases hy : d1.with_year (year + 1) with
                | none =>
                    simp only [hy] at hp
                    exact absurd hp (by simp)
                | some d1b =>
                    simp only [hy] at hp
                    injection hp with h1
                    subst h1
                    refine ⟨d0, d1b.with_time 23 59 59, rfl, ?_, hf0.2.1, hf0.2.2.1, hf0.2.2.2, rfl, rfl, rfl⟩
                    have hyr : d1b.year = year + 1 := by
                      rw [with_year_eq d1 (year + 1) d1b hy]
                    refine year_lt_ble _ _ ?_
                    have : (DateTime.with_time d1b 23 59 59).year = d1b.year := rfl
                    rw [this, hyr, hf0.1]
                    omega
          · exact absurd hp (by simp)

/-- Erasing the month tokens of a date-entry pair (when their names are
valid) does not change the collected day, times or details. -/
theorem collectEntryFields_filter_months (inner : List EntryPairRule) (f g : EntryFields)
    (hd : f.day_number = g.day_number) (ht : f.times = g.times)
    (ha : f.additional_details = g.additional_details)
    (hvalid : ∀ name, EntryPairRule.month name ∈ inner →
      ∃ k, month_name_to_number name = .ok k) :
    ∃ f2 g2, collectEntryFields inner f = .ok f2 ∧
      collectEntryFields
        (inner.filter (fun r => match r with | .month _ => false | _ => true)) g = .ok g2 ∧
      f2.day_number = g2.day_number ∧ f2.times = g2.times ∧
      f2.additional_details = g2.additional_details := by
  induction inner generalizing f g with
  | nil => exact ⟨f, g, rfl, rfl, hd, ht, ha⟩
  | cons r rest ih =>
      have hvrest : ∀ name, EntryPairRule.month name ∈ rest →
          ∃ k, month_name_to_number name = .ok k :=
        fun name hm => hvalid name (List.mem_cons_of_mem r hm)
      cases r with
      | day_number n =>
          simp only [collectEntryFields, List.filter]
          exact ih { f with day_number := some n } { g with day_number := some n }
            rfl ht ha hvrest
      | month name =>
          obtain ⟨k, hk⟩ := hvalid name (List.mem_cons_self (EntryPairRule.month name) rest)
          simp only [collectEntryFields, List.filter, hk]
          exact ih { f with month := some k } g hd ht ha hvrest
      | time h mi =>
          simp only [collectEntryFields, List.filter]
          refine ih { f with times := f.times ++ [(h, mi)] }
            { g with times := g.times ++ [(h, mi)] } hd ?_ ha hvrest
          simp [ht]
      | additional_details s =>
          simp only [collectEntryFields, List.filter]
          exact ih { f with additional_details := some s }
            { g with additional_details := some s } hd ht rfl hvrest

/-- C2: the claim says a day-only token with no candidate inside the
boundary pair is deferred and, if still unresolved, fails the whole
parse naming the offending text. The code instead silently drops the
entry: day 31 has no valid date in September and its October date falls
after the upper bound, yet `parse_date_entry` succeeds with an empty
entry list (the `filter_map(Result::ok)` of parser.rs line 293 discards
the resolution error, and the `Uncertain` deferral variant is never
constructed). -/
theorem claim_C2_unresolvable_day_silently_dropped :
    parse_date_entry ⟨"31 17:00", [.day_number 31, .time 17 0]⟩
      ⟨2024, 9, 25, 0, 0, 0⟩ ⟨2024, 10, 2, 23, 59, 59⟩ =
      .ok (.Parsed []) := rfl

/-- C4: the claim says an invalid hour/minute combination fails the
whole parse. The code instead drops the offending time: hour 25 makes
`NaiveTime::from_hms_opt` fail, the error is discarded by
`filter_map(Result::ok)`, and the parse succeeds with the time omitted. -/
theorem claim_C4_invalid_time_silently_dropped :
    parse_date_entry ⟨"26 25:00", [.day_number 26, .time 25 0]⟩
      ⟨2024, 9, 25, 0, 0, 0⟩ ⟨2024, 10, 2, 23, 59, 59⟩ =
      .ok (.Parsed []) := rfl

/-- C3 counterexample: a token with explicit month `agosto` (8) and day
30, against the boundary pair [2024-09-25, 2024-10-02], resolves to
September 30 — the explicit month is not used to construct the
timestamp, contradicting the claim that the resolver builds the
timestamp from that month. -/
theorem claim_C3_counterexample :
    parse_date_entry ⟨"30 agosto 17:00", [.day_number 30, .month "agosto", .time 17 0]⟩
      ⟨2024, 9, 25, 0, 0, 0⟩ ⟨2024, 10, 2, 23, 59, 59⟩ =
      .ok (.Parsed [⟨⟨2024, 9, 30, 17, 0, 0⟩, none⟩]) ∧
    (⟨2024, 9, 30, 17, 0, 0⟩ : DateTime).month ≠ 8 :=
  ⟨rfl, by decide⟩

/-- C3 (amended): a date-entry token carrying an explicit month name has
the name validated (an invalid name fails the parse), but the resolver
otherwise ignores it: the result is identical to parsing the same token
with its month tokens erased, so timestamps always come from the
boundary months via the day-only candidate logic. -/
theorem claim_C3_explicit_month_ignored (src : String) (inner : List EntryPairRule)
    (lower_bound upper_bound : DateTime)
    (hvalid : ∀ name, EntryPairRule.month name ∈ inner →
      ∃ k, month_name_to_number name = .ok k) :
    parse_date_entry ⟨src, inner⟩ lower_bound upper_bound =
      parse_date_entry
        ⟨src, inner.filter (fun r => match r with | .month _ => false | _ => true)⟩
        lower_bound upper_bound := by
  unfold parse_date_entry
  obtain ⟨f2, g2, hc1, hc2, e1, e2, e3⟩ :=
    collectEntryFields_filter_months inner ⟨none, none, [], none⟩ ⟨none, none, [], none⟩
      rfl rfl rfl hvalid
  simp only [hc1, hc2]
  rw [e1, e2, e3]

/-- C3 witness: the amended invariance at the concrete counterexample
token. -/
theorem claim_C3_explicit_month_ignored_witness :
    parse_date_entry ⟨"30 agosto 17:00", [.day_number 30, .month "agosto", .time 17 0]⟩
      ⟨2024, 9, 25, 0, 0, 0⟩ ⟨2024, 10, 2, 23, 59, 59⟩ =
      parse_date_entry
        ⟨"30 agosto 17:00",
          ([.day_number 30, .month "agosto", .time 17 0] : List EntryPairRule).filter
            (fun r => match r with | .month _ => false | _ => true)⟩
        ⟨2024, 9, 25, 0, 0, 0⟩ ⟨2024, 10, 2, 23, 59, 59⟩ :=
  claim_C3_explicit_month_ignored "30 agosto 17:00"
    [.day_number 30, .month "agosto", .time 17 0]
    ⟨2024, 9, 25, 0, 0, 0⟩ ⟨2024, 10, 2, 23, 59, 59⟩
    (by
      intro name hmem
      simp only [List.mem_cons, List.not_mem_nil, or_false] at hmem
      rcases hmem with h | h | h
      · exact absurd h (by simp)
      · injection h with h2
        subst h2
        exact ⟨8, rfl⟩
      · exact absurd h (by simp))

/-- C5: for subject lines with exactly two day numbers and one or two
month names, a successful resolution yields an ordered boundary pair:
the lower date a midnight, the upper date a 23:59:59, with lower <=
upper. -/
theorem claim_C5_boundary_pair_ordered (year : Nat) (toks : List SubjToken)
    (ds : List DateTime)
    (hdays : countDayTokens toks = 2)
    (hmonths : countMonthTokens toks = 1 ∨ countMonthTokens toks = 2)
    (hp : parse_subject_line_dates year toks = .ok ds) :
    ∃ lo hi, ds = [lo, hi] ∧ DateTime.ble lo hi = true ∧
      lo.hour = 0 ∧ lo.minute = 0 ∧ lo.second = 0 ∧
      hi.hour = 23 ∧ hi.minute = 59 ∧ hi.second = 59 :=
  parse_subject_ok_shape year toks ds hp

/-- C5 witness: the subject `programmazione 25 settembre > 2 ottobre`
in year 2024. -/
theorem claim_C5_boundary_pair_ordered_witness :
    countDayTokens subjToksA = 2 ∧ countMonthTokens subjToksA = 2 ∧
    (∃ lo hi,
      ([⟨2024, 9, 25, 0, 0, 0⟩, ⟨2024, 10, 2, 23, 59, 59⟩] : List DateTime) = [lo, hi] ∧
      DateTime.ble lo hi = true ∧
      lo.hour = 0 ∧ lo.minute = 0 ∧ lo.second = 0 ∧
      hi.hour = 23 ∧ hi.minute = 59 ∧ hi.second = 59) :=
  ⟨by decide, by decide,
    claim_C5_boundary_pair_ordered 2024 subjToksA
      [⟨2024, 9, 25, 0, 0, 0⟩, ⟨2024, 10, 2, 23, 59, 59⟩]
      (by decide) (Or.inr (by decide)) (by rfl)⟩

/-- C6: when the second boundary date computed with the current year is
earlier than the first, a successful resolution re-anchors it to the
next year: the lower bound keeps the current year and the upper bound
carries year + 1. -/
theorem claim_C6_year_crossover (year : Nat) (toks : List SubjToken)
    (d0 m0 d1 m1 : Nat) (a b lo hi : DateTime)
    (hap : collectAndPair toks = .ok [(d0, m0), (d1, m1)])
    (ha : with_ymd_and_hms year m0 d0 0 0 0 = some a)
    (hb : with_ymd_and_hms year m1 d1 0 0 0 = some b)
    (hlt : DateTime.blt b a = true)
    (hp : parse_subject_line_dates year toks = .ok [lo, hi]) :
    lo.year = year ∧ hi.year = year + 1 := by
  unfold parse_subject_line_dates at hp
  simp only [hap] at hp
  have hmk : mkBoundaryDates year [(d0, m0), (d1, m1)] = .ok [a, b] := by
    unfold mkBoundaryDates
    simp only [ha]
    unfold mkBoundaryDates
    simp only [hb]
    rfl
  simp only [hmk] at hp
  unfold finishBoundaryDates at hp
  simp only [hlt, if_true] at hp
  cases hy : b.with_year (year + 1) with
  | none =>
      simp only [hy] at hp
      exact absurd hp (by simp)
  | some b2 =>
      simp only [hy] at hp
      injection hp with h1
      injection h1 with h2 h3
      injection h3 with h4 h5
      constructor
      · rw [← h2, with_ymd_eq year m0 d0 0 0 0 a ha]
      · rw [← h4]
        have hyr : b2.year = year + 1 := by
          rw [with_year_eq b (year + 1) b2 hy]
        exact hyr

/-- The chosen candidate date always passes the upper-bound filter. -/
theorem chooseCandidate_le_upper (lo hi : DateTime) (day : Nat) (c : DateTime)
    (h : chooseCandidate lo hi day = some c) : DateTime.ble c hi = true := by
  unfold chooseCandidate at h
  cases h0 : candidateBeforeUpperCheck lo hi day with
  | none =>
      simp only [h0] at h
      exact absurd h (by simp)
  | some d =>
      simp only [h0] at h
      split at h
      · injection h with h1
        subst h1
        assumption
      · simp at h

/-- Characterisation of a successful `from_hms_opt`. -/
theorem from_hms_opt_some (h mi s : Nat) (t : Nat × Nat × Nat)
    (hw : from_hms_opt h mi s = some t) :
    h < 24 ∧ mi < 60 ∧ s < 60 ∧ t = (h, mi, s) := by
  unfold from_hms_opt at hw
  split at hw
  · rename_i hcond
    exact ⟨hcond.1, hcond.2.1, hcond.2.2, (Option.some.inj hw).symm⟩
  · simp at hw

/-- Every date produced by `resolveTime` is at or before an upper bound
whose time of day is 23:59:59. -/
theorem resolveTime_le_upper (lo hi : DateTime) (day h mi : Nat) (d : DateTime)
    (hr : resolveTime lo hi day h mi = .ok d)
    (h23 : hi.hour = 23) (h59 : hi.minute = 59) (h59s : hi.second = 59) :
    DateTime.ble d hi = true := by
  unfold resolveTime at hr
  cases hc : chooseCandidate lo hi day with
  | none =>
      simp only [hc] at hr
      exact absurd hr (by simp)
  | some c =>
      simp only [hc] at hr
      cases hf : from_hms_opt h mi 0 with
      | none =>
          simp only [hf] at hr
          exact absurd hr (by simp)
      | some t =>
          simp only [hf] at hr
          injection hr with h1
          obtain ⟨hh, hm, _, ht⟩ := from_hms_opt_some h mi 0 t hf
          subst ht
          rw [← h1]
          exact ble_with_time_upper c hi h mi (chooseCandidate_le_upper lo hi day c hc)
            hh hm h23 h59 h59s

/-- Every date of a `Parsed` result of `parse_date_entry` is at or
before an upper bound whose time of day is 23:59:59. -/
theorem parse_date_entry_dates_le_upper (pair : DateEntryPair) (lo hi : DateTime)
    (l : List DateEntry)
    (hp : parse_date_entry pair lo hi = .ok (.Parsed l))
    (h23 : hi.hour = 23) (h59 : hi.minute = 59) (h59s : hi.second = 59) :
    ∀ de ∈ l, DateTime.ble de.date hi = true := by
  unfold parse_date_entry at hp
  cases hc : collectEntryFields pair.inner ⟨none, none, [], none⟩ with
  | error e =>
      simp only [hc] at hp
      exact absurd hp (by simp)
  | ok f =>
      simp only [hc] at hp
      cases hd : f.day_number with
      | none =>
          simp only [hd] at hp
          exact absurd hp (by simp)
      | some day =>
          simp only [hd] at hp
          cases he : f.times.isEmpty with
          | true =>
              simp only [he, if_true] at hp
              exact absurd hp (by simp)
          | false =>
              simp only [he, Bool.false_eq_true, if_false] at hp
              injection hp with h1
              injection h1 with h2
              intro de hde
              rw [← h2] at hde
              rw [List.mem_map] at hde
              obtain ⟨dt, hdt, hmk⟩ := hde
              rw [List.mem_filterMap] at hdt
              obtain ⟨r, hr, hg⟩ := hdt
              rw [List.mem_map] at hr
              obtain ⟨hm, _, hrt⟩ := hr
              cases r with
              | error e => simp at hg
              | ok d2 =>
                  have hd2 : d2 = dt := by
                    simpa using hg
                  subst hd2
                  rw [← hmk]
                  exact resolveTime_le_upper lo hi day hm.1 hm.2 d2 hrt h23 h59 h59s

/-- Every date collected by the first resolution pass is at or before
an upper bound whose time of day is 23:59:59. -/
theorem firstPass_dates_le_upper (lo hi : DateTime) (ps : List DateEntryPair)
    (des : List DateEntry) (rps : List DateEntryPair)
    (hp : firstPass lo hi ps = .ok (des, rps))
    (h23 : hi.hour = 23) (h59 : hi.minute = 59) (h59s : hi.second = 59) :
    ∀ de ∈ des, DateTime.ble de.date hi = true := by
  induction ps generalizing des rps with
  | nil =>
      unfold firstPass at hp
      injection hp with h1
      injection h1 with h2 h3
      subst h2
      simp
  | cons p ps ih =>
      unfold firstPass at hp
      cases hr : parse_date_entry p lo hi with
      | error e =>
          simp only [hr] at hp
          exact absurd hp (by simp)
      | ok r =>
          simp only [hr] at hp
          cases hfp : firstPass lo hi ps with
          | error e =>
              simp only [hfp] at hp
              exact absurd hp (by simp)
          | ok pr =>
              obtain ⟨des2, rps2⟩ := pr
              simp only [hfp] at hp
              cases r with
              | Parsed parsed =>
                  injection hp with h1
                  injection h1 with h2 h3
                  subst h2
                  intro de hde
                  rcases List.mem_append.mp hde with hl | hrr
                  · exact parse_date_entry_dates_le_upper p lo hi parsed hr h23 h59 h59s de hl
                  · exact ih des2 rps2 hfp de hrr
              | Uncertain q =>
                  injection hp with h1
                  injection h1 with h2 h3
                  subst h2
                  exact ih des2 rps2 hfp

/-- Every date collected by the second resolution pass is at or before
an upper bound whose time of day is 23:59:59. -/
theorem secondPass_dates_le_upper (lo hi : DateTime) (ps : List DateEntryPair)
    (des : List DateEntry)
    (hp : secondPass lo hi ps = .ok des)
    (h23 : hi.hour = 23) (h59 : hi.minute = 59) (h59s : hi.second = 59) :
    ∀ de ∈ des, DateTime.ble de.date hi = true := by
  induction ps generalizing des with
  | nil =>
      unfold secondPass at hp
      injection hp with h1
      subst h1
      simp
  | cons p ps ih =>
      unfold secondPass at hp
      cases hr : parse_date_entry p lo hi with
      | error e =>
          simp only [hr] at hp
          exact absurd hp (by simp)
      | ok r =>
          simp only [hr] at hp
          cases r with
          | Parsed parsed =>
              cases hsp : secondPass lo hi ps with
              | error e =>
                  simp only [hsp] at hp
                  exact absurd hp (by simp)
              | ok rest =>
                  simp only [hsp] at hp
                  injection hp with h1
                  subst h1
                  intro de hde
                  rcases List.mem_append.mp hde with hl | hrr
                  · exact parse_date_entry_dates_le_upper p lo hi parsed hr h23 h59 h59s de hl
                  · exact ih rest hsp de hrr
          | Uncertain q => exact absurd hp (by simp)

/-- Every date of a successfully processed title block is at or before
an upper bound whose time of day is 23:59:59. -/
theorem processBlock_dates_le_upper (lo hi : DateTime) (sel : SelectedNode)
    (pe : ProgrammingEntry)
    (hp : processBlock lo hi sel = .ok pe)
    (h23 : hi.hour = 23) (h59 : hi.minute = 59) (h59s : hi.second = 59) :
    ∀ de ∈ pe.date_entries, DateTime.ble de.date hi = true := by
  unfold processBlock at hp
  cases hft : firstText sel.node with
  | none =>
      simp only [hft] at hp
      exact absurd hp (by simp)
  | some title =>
      simp only [hft] at hp
      cases hp3 : parentElement3 sel with
      | none =>
          simp only [hp3] at hp
          exact absurd hp (by simp)
      | some box =>
          simp only [hp3, dateEntryGrammarParse] at hp
          cases hfp : firstPass lo hi
              (scanEntriesFuel (splitWords (flattenScheduleText box)).length
                (splitWords (flattenScheduleText box))) with
          | error e =>
              simp only [hfp] at hp
              exact absurd hp (by simp)
          | ok pr =>
              obtain ⟨des1, rps⟩ := pr
              simp only [hfp] at hp
              cases hsp : secondPass lo hi rps with
              | error e =>
                  simp only [hsp] at hp
                  exact absurd hp (by simp)
              | ok des2 =>
                  simp only [hsp] at hp
                  injection hp with h1
                  rw [← h1]
                  intro de hde
                  rcases List.mem_append.mp hde with hl | hrr
                  · exact firstPass_dates_le_upper lo hi _ des1 rps hfp h23 h59 h59s de hl
                  · exact secondPass_dates_le_upper lo hi rps des2 hsp h23 h59 h59s de hrr

/-- Every date of a successful block run is at or before an upper bound
whose time of day is 23:59:59. -/
theorem processBlocks_dates_le_upper (lo hi : DateTime) (l : List SelectedNode)
    (es : List ProgrammingEntry)
    (hp : processBlocks lo hi l = .ok es)
    (h23 : hi.hour = 23) (h59 : hi.minute = 59) (h59s : hi.second = 59) :
    ∀ pe ∈ es, ∀ de ∈ pe.date_entries, DateTime.ble de.date hi = true := by
  induction l generalizing es with
  | nil =>
      unfold processBlocks at hp
      injection hp with h1
      subst h1
      simp
  | cons b bs ih =>
      unfold processBlocks at hp
      cases hb : processBlock lo hi b with
      | error e =>
          simp only [hb] at hp
          exact absurd hp (by simp)
      | ok entry =>
          simp only [hb] at hp
          cases hbs : processBlocks lo hi bs with
          | error e =>
              simp only [hbs] at hp
              exact absurd hp (by simp)
          | ok rest =>
              simp only [hbs] at hp
              injection hp with h1
              subst h1
              intro pe hpe
              rcases List.mem_cons.mp hpe with rfl | hmem
              · exact processBlock_dates_le_upper lo hi b pe hb h23 h59 h59s
              · exact ih rest hbs pe hmem

/-- A failing block anywhere in the list fails the whole block run. -/
theorem processBlocks_error_of_mem (lo hi : DateTime) (l : List SelectedNode)
    (b : SelectedNode) (msg : String)
    (hmem : b ∈ l) (hb : processBlock lo hi b = .error msg) :
    ∃ e, processBlocks lo hi l = .error e := by
  induction l with
  | nil => simp at hmem
  | cons hd tl ih =>
      cases hph : processBlock lo hi hd with
      | error e =>
          refine ⟨e, ?_⟩
          unfold processBlocks
          simp only [hph]
      | ok entry =>
          rcases List.mem_cons.mp hmem with rfl | hmem2
          · rw [hb] at hph
            exact absurd hph (by simp)
          · obtain ⟨e, he⟩ := ih hmem2
            refine ⟨e, ?_⟩
            unfold processBlocks
            simp only [hph, he]

/-- A successful block run processes the matched headings pointwise. -/
theorem processBlocks_forall2 (lo hi : DateTime) (l : List SelectedNode)
    (es : List ProgrammingEntry)
    (hp : processBlocks lo hi l = .ok es) :
    List.Forall₂ (fun b e => processBlock lo hi b = .ok e) l es := by
  induction l generalizing es with
  | nil =>
      unfold processBlocks at hp
      injection hp with h1
      subst h1
      exact List.Forall₂.nil
  | cons b bs ih =>
      unfold processBlocks at hp
      cases hb : processBlock lo hi b with
      | error e =>
          simp only [hb] at hp
          exact absurd hp (by simp)
      | ok entry =>
          simp only [hb] at hp
          cases hbs : processBlocks lo hi bs with
          | error e =>
              simp only [hbs] at hp
              exact absurd hp (by simp)
          | ok rest =>
              simp only [hbs] at hp
              injection hp with h1
              subst h1
              exact List.Forall₂.cons hb (ih rest hbs)

/-- A successfully processed block takes its title from the first text
fragment of the matched heading. -/
theorem processBlock_title (lo hi : DateTime) (sel : SelectedNode)
    (pe : ProgrammingEntry)
    (hp : processBlock lo hi sel = .ok pe) :
    firstText sel.node = some pe.title := by
  unfold processBlock at hp
  cases hft : firstText sel.node with
  | none =>
      simp only [hft] at hp
      exact absurd hp (by simp)
  | some title =>
      simp only [hft] at hp
      cases hp3 : parentElement3 sel with
      | none =>
          simp only [hp3] at hp
          exact absurd hp (by simp)
      | some box =>
          simp only [hp3, dateEntryGrammarParse] at hp
          cases hfp : firstPass lo hi
              (scanEntriesFuel (splitWords (flattenScheduleText box)).length
                (splitWords (flattenScheduleText box))) with
          | error e =>
              simp only [hfp] at hp
              exact absurd hp (by simp)
          | ok pr =>
              obtain ⟨des1, rps⟩ := pr
              simp only [hfp] at hp
              cases hsp : secondPass lo hi rps with
              | error e =>
                  simp only [hsp] at hp
                  exact absurd hp (by simp)
              | ok des2 =>
                  simp only [hsp] at hp
                  injection hp with h1
                  rw [← h1]

/-- The head of a non-empty list taken with a default is a member. -/
theorem getD_zero_mem {α : Type} (l : List α) (d : α) (h : l.length ≠ 0) :
    l.getD 0 d ∈ l := by
  cases l with
  | nil => simp at h
  | cons a t => simp [List.getD]

/-- C1 (amended): every `DateEntry.date` of a successful
`parse_email_body` lies at or before the upper boundary resolved from
the subject line (the lower boundary is not guaranteed: license the
counterexample). -/
theorem claim_C1_dates_le_upper (year : Nat) (subject : List SubjToken) (dom : DomNode)
    (lo hi : DateTime) (ne : NewsletterEntry)
    (hb : parse_subject_line_dates year subject = .ok [lo, hi])
    (hp : parse_email_body year subject dom = .ok ne) :
    ∀ pe ∈ ne.programming_entries, ∀ de ∈ pe.date_entries,
      DateTime.ble de.date hi = true := by
  obtain ⟨lo2, hi2, hds, _, _, _, _, hh1, hh2, hh3⟩ :=
    parse_subject_ok_shape year subject [lo, hi] hb
  injection hds with he1 he2
  injection he2 with he3 he4
  subst he1
  subst he3
  unfold parse_email_body at hp
  simp only [hb] at hp
  unfold parse_html at hp
  cases hlm : (linkMatches dom).head? with
  | none =>
      simp only [hlm] at hp
      exact absurd hp (by simp)
  | some lk =>
      simp only [hlm] at hp
      cases hattr : getAttr lk.node "href" with
      | none =>
          simp only [hattr] at hp
          exact absurd hp (by simp)
      | some href =>
          simp only [hattr] at hp
          cases hpb : processBlocks lo hi (titleMatches dom) with
          | error e =>
              simp only [hpb] at hp
              exact absurd hp (by simp)
          | ok entries =>
              simp only [hpb] at hp
              injection hp with h1
              rw [← h1]
              exact processBlocks_dates_le_upper lo hi (titleMatches dom) entries hpb
                hh1 hh2 hh3

/-- C1 witness: the upper-bound invariant at the concrete fixture A. -/
theorem claim_C1_dates_le_upper_witness :
    DateTime.ble ⟨2024, 9, 26, 17, 0, 0⟩ ⟨2024, 10, 2, 23, 59, 59⟩ = true :=
  claim_C1_dates_le_upper 2024 subjToksA domA
    ⟨2024, 9, 25, 0, 0, 0⟩ ⟨2024, 10, 2, 23, 59, 59⟩
    ⟨[⟨"FILM TITLE", [⟨⟨2024, 9, 26, 17, 0, 0⟩, none⟩]⟩], "https://example.org/nl"⟩
    (by rfl) (by rfl)
    ⟨"FILM TITLE", [⟨⟨2024, 9, 26, 17, 0, 0⟩, none⟩]⟩ (by simp)
    ⟨⟨2024, 9, 26, 17, 0, 0⟩, none⟩ (by simp)

/-- C1 counterexample: with the single-month boundary `25 settembre >
30` and a schedule entry `10 17:00`, the parse succeeds and returns the
date 2024-09-10, which is strictly before the lower boundary
2024-09-25 — so a produced `DateEntry.date` can fall outside
`[lower, upper]`, refuting the claim as stated. -/
theorem claim_C1_counterexample :
    parse_subject_line_dates 2024 subjToksD =
      .ok [⟨2024, 9, 25, 0, 0, 0⟩, ⟨2024, 9, 30, 23, 59, 59⟩] ∧
    parse_email_body 2024 subjToksD domD = .ok
      ⟨[⟨"FILM", [⟨⟨2024, 9, 10, 17, 0, 0⟩, none⟩]⟩], "https://example.org/nl"⟩ ∧
    DateTime.ble ⟨2024, 9, 25, 0, 0, 0⟩ ⟨2024, 9, 10, 17, 0, 0⟩ = false :=
  ⟨rfl, rfl, by decide⟩

/-- C7: if any title block fails to process, the whole
`parse_email_body` call fails — no partial newsletter is returned. -/
theorem claim_C7_all_or_nothing (year : Nat) (subject : List SubjToken) (dom : DomNode)
    (lo hi : DateTime) (blk : SelectedNode) (msg : String)
    (hb : parse_subject_line_dates year subject = .ok [lo, hi])
    (hmem : blk ∈ titleMatches dom)
    (hfail : processBlock lo hi blk = .error msg) :
    ∃ e, parse_email_body year subject dom = .error e := by
  unfold parse_email_body
  simp only [hb]
  unfold parse_html
  cases hlm : (linkMatches dom).head? with
  | none =>
      refine ⟨"Could not find newsletter link!", ?_⟩
      simp only [hlm]
  | some lk =>
      cases hattr : getAttr lk.node "href" with
      | none =>
          refine ⟨"Newsletter link does not have href attribute!", ?_⟩
          simp only [hlm, hattr]
      | some href =>
          obtain ⟨e, he⟩ := processBlocks_error_of_mem lo hi (titleMatches dom) blk msg
            hmem hfail
          refine ⟨e, ?_⟩
          simp only [hlm, hattr, he]

/-- C7 witness: a document whose only title heading has no text makes
the whole call fail. -/
theorem claim_C7_all_or_nothing_witness :
    ∃ e, parse_email_body 2024 subjToksA domC = .error e :=
  claim_C7_all_or_nothing 2024 subjToksA domC
    ⟨2024, 9, 25, 0, 0, 0⟩ ⟨2024, 10, 2, 23, 59, 59⟩
    ((titleMatches domC).getD 0 defaultSelected)
    "Could not find text in selected element"
    (by rfl)
    (getD_zero_mem (titleMatches domC) defaultSelected (by decide))
    (by rfl)

/-- C8: the walker takes the first (and only) anchor matched by the
fixed structural selector path; the parse fails when no element matches
or when the matched anchor has no `href` attribute, and on success the
newsletter link is exactly that anchor's `href`. -/
theorem claim_C8_newsletter_link (dom : DomNode) (lo hi : DateTime) :
    ((linkMatches dom).head? = none →
      parse_html dom [lo, hi] = .error "Could not find newsletter link!") ∧
    (∀ lk, (linkMatches dom).head? = some lk → getAttr lk.node "href" = none →
      parse_html dom [lo, hi] = .error "Newsletter link does not have href attribute!") ∧
    (∀ ne, parse_html dom [lo, hi] = .ok ne →
      ∃ lk, (linkMatches dom).head? = some lk ∧
        getAttr lk.node "href" = some ne.newsletter_link) := by
  refine ⟨?_, ?_, ?_⟩
  · intro h
    unfold parse_html
    simp only [h]
  · intro lk h1 h2
    unfold parse_html
    simp only [h1, h2]
  · intro ne hp
    unfold parse_html at hp
    cases hlm : (linkMatches dom).head? with
    | none =>
        simp only [hlm] at hp
        exact absurd hp (by simp)
    | some lk =>
        simp only [hlm] at hp
        cases hattr : getAttr lk.node "href" with
        | none =>
            simp only [hattr] at hp
            exact absurd hp (by simp)
        | some href =>
            simp only [hattr] at hp
            cases hpb : processBlocks lo hi (titleMatches dom) with
            | error e =>
                simp only [hpb] at hp
                exact absurd hp (by simp)
            | ok entries =>
                simp only [hpb] at hp
                injection hp with h1
                refine ⟨lk, rfl, ?_⟩
                rw [← h1]
                exact hattr

/-- C8 witness: a document with no matching anchor fails with the
missing-link error. -/
theorem claim_C8_newsletter_link_witness :
    parse_html (.element "html" [] [])
      [⟨2024, 1, 1, 0, 0, 0⟩, ⟨2024, 1, 2, 23, 59, 59⟩] =
      .error "Could not find newsletter link!" :=
  (claim_C8_newsletter_link (.element "html" [] [])
    ⟨2024, 1, 1, 0, 0, 0⟩ ⟨2024, 1, 2, 23, 59, 59⟩).1 (by rfl)

/-- C9: the parsing core is a pure function of the subject tokens, the
document and the injected current year — two calls on identical inputs
under the same clock yield identical results. -/
theorem claim_C9_deterministic (year : Nat) (subject : List SubjToken) (body : DomNode) :
    parse_email_body year subject body = parse_email_body year subject body := rfl

/-- C10: the title of each programming entry is exactly the first text
fragment of the matched heading (later fragments are discarded), and a
heading with no text fragment at all fails the parse. -/
theorem claim_C10_title_first_text (dom : DomNode) (lo hi : DateTime) :
    (∀ blk ∈ titleMatches dom, firstText blk.node = none →
      ∃ e, parse_html dom [lo, hi] = .error e) ∧
    (∀ ne, parse_html dom [lo, hi] = .ok ne →
      List.Forall₂ (fun blk pe => firstText blk.node = some pe.title)
        (titleMatches dom) ne.programming_entries) := by
  constructor
  · intro blk hmem hnone
    have hfail : processBlock lo hi blk = .error "Could not find text in selected element" := by
      unfold processBlock
      simp only [hnone]
    unfold parse_html
    cases hlm : (linkMatches dom).head? with
    | none =>
        refine ⟨"Could not find newsletter link!", ?_⟩
        simp only [hlm]
    | some lk =>
        cases hattr : getAttr lk.node "href" with
        | none =>
            refine ⟨"Newsletter link does not have href attribute!", ?_⟩
            simp only [hlm, hattr]
        | some href =>
            obtain ⟨e, he⟩ := processBlocks_error_of_mem lo hi (titleMatches dom) blk _
              hmem hfail
            refine ⟨e, ?_⟩
            simp only [hlm, hattr, he]
  · intro ne hp
    unfold parse_html at hp
    cases hlm : (linkMatches dom).head? with
    | none =>
        simp only [hlm] at hp
        exact absurd hp (by simp)
    | some lk =>
        simp only [hlm] at hp
        cases hattr : getAttr lk.node "href" with
        | none =>
            simp only [hattr] at hp
            exact absurd hp (by simp)
        | some href =>
            simp only [hattr] at hp
            cases hpb : processBlocks lo hi (titleMatches dom) with
            | error e =>
                simp only [hpb] at hp
                exact absurd hp (by simp)
            | ok entries =>
                simp only [hpb] at hp
                injection hp with h1
                rw [← h1]
                exact (processBlocks_forall2 lo hi (titleMatches dom) entries hpb).imp
                  (fun {blk pe} hb => processBlock_title lo hi blk pe hb)

/-- C10 witness: the pointwise title property at the concrete fixture A. -/
theorem claim_C10_title_first_text_witness :
    List.Forall₂ (fun blk pe => firstText blk.node = some pe.title)
      (titleMatches domA)
      (NewsletterEntry.mk [⟨"FILM TITLE", [⟨⟨2024, 9, 26, 17, 0, 0⟩, none⟩]⟩]
        "https://example.org/nl").programming_entries :=
  (claim_C10_title_first_text domA ⟨2024, 9, 25, 0, 0, 0⟩ ⟨2024, 10, 2, 23, 59, 59⟩).2
    (NewsletterEntry.mk [⟨"FILM TITLE", [⟨⟨2024, 9, 26, 17, 0, 0⟩, none⟩]⟩]
      "https://example.org/nl")
    (by rfl)

/-- C6 witness: the year-crossover subject `27 dicembre > 3 gennaio` in
year 2024 yields a lower bound in 2024 and an upper bound in 2025. -/
theorem claim_C6_year_crossover_witness :
    (⟨2024, 12, 27, 0, 0, 0⟩ : DateTime).year = 2024 ∧
    (⟨2025, 1, 3, 23, 59, 59⟩ : DateTime).year = 2025 :=
  claim_C6_year_crossover 2024 subjToksB 27 12 3 1
    ⟨2024, 12, 27, 0, 0, 0⟩ ⟨2024, 1, 3, 0, 0, 0⟩
    ⟨2024, 12, 27, 0, 0, 0⟩ ⟨2025, 1, 3, 23, 59, 59⟩
    (by rfl) (by rfl) (by rfl) (by decide) (by rfl)
